import Mathlib

/-!
Verification of the RiskService robust-volatility pipeline
(`src/robust_volatility_calculation.py`).

The pandas/numpy pipeline is shallowly embedded: a pandas float `Series`
becomes a `List (Option A)` over a linear ordered field `A`, with `none`
playing the role of NaN ("no data"); code paths that raise in Python
return `Except String`.  Machine floats are modelled by exact field
arithmetic (`Rat` for concrete evaluation, `Real` where `sqrt` is needed).
-/

set_option linter.unusedSectionVars false

namespace RiskService

variable {A : Type} [LinearOrderedField A]

/-- NaN-propagating binary maximum, the behaviour of `np.maximum` on float
series: if either operand is NaN the result is NaN. -/
def npMaximum (a b : Option A) : Option A :=
  match a, b with
  | some x, some y => some (max x y)
  | _, _ => none

/-- Forward fill (`Series.ffill`): each `none` entry is replaced by the most
recent `some` value seen so far (`carry`); leading `none`s stay `none`. -/
def ffillAux : Option A → List (Option A) → List (Option A)
  | _, [] => []
  | _, some v :: xs => some v :: ffillAux (some v) xs
  | carry, none :: xs => carry :: ffillAux carry xs

/-- `Series.ffill` starting with no carried value. -/
def ffill (l : List (Option A)) : List (Option A) := ffillAux none l

/-- The constant `vol_abs_min = 0.0000000001` (`1e-10`) of `apply_min_vol`. -/
def vol_abs_min : A := 1 / 10 ^ 10

/-- `apply_min_vol(vol)`: the source executes `vol[vol < vol_abs_min] = vol_abs_min`.
A float comparison against NaN is false, so `none` entries pass through. -/
def apply_min_vol (vol : List (Option A)) : List (Option A) :=
  vol.map fun e =>
    match e with
    | none => none
    | some v => if v < vol_abs_min then some vol_abs_min else some v

/-- Default parameter `floor_min_quant = 0.05` of `apply_vol_floor`. -/
def floor_min_quant : ℚ := 0.05

/-- Default parameter `floor_min_periods = 100` of `apply_vol_floor`. -/
def floor_min_periods : ℕ := 100

/-- Default parameter `floor_days = 500` of `apply_vol_floor`. -/
def floor_days : ℕ := 500

/-- Pandas linear-interpolation quantile (the default `interpolation='linear'`):
with sorted values `x_0 ≤ ... ≤ x_{n-1}`, `h = q*(n-1)`, `j = ⌊h⌋`, the
result is `x_j + (h - j) * (x_{j+1} - x_j)` (when `j` is the last index the
fractional part is `0` and the fallback argument is irrelevant). -/
def quantileLinear (q : ℚ) (vals : List A) : A :=
  let sorted := vals.insertionSort (· ≤ ·)
  let n := sorted.length
  let h : ℚ := q * (n - 1)
  let j : ℕ := ⌊h⌋.toNat
  let g : ℚ := h - j
  sorted.getD j 0 + (g : A) * (sorted.getD (j + 1) (sorted.getD j 0) - sorted.getD j 0)

/-- `vol.rolling(min_periods=mp, window=w).quantile(quantile=q)`: at index `i`
the trailing window holds the last `w` entries up to and including `i`
(fewer near the start); NaNs are dropped; with fewer than `mp` valid values
the output is NaN, otherwise the linear-interpolation quantile of the valid
values. -/
def rollingQuantile (w mp : ℕ) (q : ℚ) (s : List (Option A)) : List (Option A) :=
  (List.range s.length).map fun i =>
    let vals := ((s.take (i + 1)).drop (i + 1 - w)).filterMap id
    if vals.length < mp then none else some (quantileLinear q vals)

/-- The raw rolling reference `vol_min` of `apply_vol_floor` (before the
first-day override and forward fill). -/
def vol_min_raw (vol : List (Option A)) : List (Option A) :=
  rollingQuantile floor_days floor_min_periods floor_min_quant vol

/-- The reference after `vol_min.iloc[0] = 0.0` and `vol_min.ffill(inplace=True)`. -/
def vol_min_filled (vol : List (Option A)) : List (Option A) :=
  ffill ((vol_min_raw vol).set 0 (some 0))

/-- `apply_vol_floor(vol)`: computes the rolling reference, forces its first
entry to `0.0` (`vol_min.iloc[0] = 0.0` raises `IndexError` on an empty
series), forward-fills it, and returns `np.maximum(vol, vol_min)`. -/
def apply_vol_floor (vol : List (Option A)) : Except String (List (Option A)) :=
  if (vol_min_raw vol).isEmpty then
    .error "IndexError: iloc cannot enlarge its target object"
  else
    .ok (List.zipWith npMaximum vol (vol_min_filled vol))

/-- `days = 35`, the span of `simple_ewvol_calc`. -/
def ewm_span : ℕ := 35

/-- `min_periods = 10` of `simple_ewvol_calc`. -/
def min_periods : ℕ := 10

/-- The decay factor `1 - alpha` with `alpha = 2/(span+1)` (pandas `ewm(span=35)`). -/
def ewmDecay : A := 1 - 2 / (ewm_span + 1)

/-- Running state of the exponentially weighted accumulators at some row:
`c` counts the valid observations so far, `s1 = Σ w_i`, `s2 = Σ w_i^2`,
`sx = Σ w_i * x_i`, `sx2 = Σ w_i * x_i^2`, where moving down one row
multiplies every weight by `ewmDecay` (pandas default `ignore_na=False`:
weights decay with absolute row position, NaN rows included). -/
structure EwState (A : Type) where
  c : ℕ
  s1 : A
  s2 : A
  sx : A
  sx2 : A

/-- Accumulator state before any row. -/
def ewmInit : EwState A := ⟨0, 0, 0, 0, 0⟩

/-- Advance the accumulators by one row of the daily series. -/
def ewmStep (st : EwState A) (x : Option A) : EwState A :=
  match x with
  | none =>
      ⟨st.c, ewmDecay * st.s1, ewmDecay ^ 2 * st.s2, ewmDecay * st.sx,
        ewmDecay * st.sx2⟩
  | some v =>
      ⟨st.c + 1, ewmDecay * st.s1 + 1, ewmDecay ^ 2 * st.s2 + 1,
        ewmDecay * st.sx + v, ewmDecay * st.sx2 + v ^ 2⟩

/-- The bias-adjusted (`adjust=True`, `bias=False`) exponentially weighted
variance at a row, NaN until `min_periods` valid observations have
accumulated: `(s1*sx2 - sx^2) / (s1^2 - s2)`, i.e. the debiasing factor
`s1^2/(s1^2 - s2)` times the weighted mean squared deviation. -/
def ewmVarAt (st : EwState A) : Option A :=
  if st.c < min_periods then none
  else some ((st.s1 * st.sx2 - st.sx ^ 2) / (st.s1 ^ 2 - st.s2))

/-- One output row per input row of the exponentially weighted variance. -/
def ewmVarAux (st : EwState A) : List (Option A) → List (Option A)
  | [] => []
  | x :: xs => ewmVarAt (ewmStep st x) :: ewmVarAux (ewmStep st x) xs

/-- `s.ewm(adjust=True, span=35, min_periods=10).var()`. -/
def ewmVar (s : List (Option A)) : List (Option A) := ewmVarAux ewmInit s

/-- `simple_ewvol_calc(daily_returns)`: pandas
`ewm(adjust=True, span=35, min_periods=10).std()`, the square root of the
bias-adjusted exponentially weighted variance (`np.sqrt` of a negative
float would be NaN, hence the sign guard). -/
noncomputable def simple_ewvol_calc (daily_returns : List (Option ℝ)) :
    List (Option ℝ) :=
  (ewmVar daily_returns).map fun o =>
    o.bind fun v => if 0 ≤ v then some (Real.sqrt v) else none

/-- Invariant of the exponentially weighted accumulators: all weights are
positive, so the Cauchy–Schwarz bound `sx^2 ≤ s1 * sx2` holds, `s2 ≤ s1^2`
(strictly once at least two observations are present), and every
accumulator is zero until the first observation. -/
def EwInv (st : EwState A) : Prop :=
  0 ≤ st.s1 ∧ 0 ≤ st.s2 ∧ 0 ≤ st.sx2 ∧
  st.sx ^ 2 ≤ st.s1 * st.sx2 ∧ st.s2 ≤ st.s1 ^ 2 ∧
  (st.c = 0 → st.s1 = 0 ∧ st.s2 = 0 ∧ st.sx = 0 ∧ st.sx2 = 0) ∧
  (1 ≤ st.c → 0 < st.s1) ∧
  (2 ≤ st.c → st.s2 < st.s1 ^ 2)

/-- Seconds in a day; `pd.to_datetime(..., unit='s')` plus `resample('D')`
groups timestamps by unix day. -/
def secondsPerDay : ℕ := 86400

/-- Calendar day (UTC) of a unix timestamp. -/
def dayOf (t : ℕ) : ℕ := t / secondsPerDay

/-- A pandas series indexed by a contiguous daily calendar: its first day
plus one optional value per consecutive day. -/
structure DailySeries (A : Type) where
  firstDay : ℕ
  values : List (Option A)
deriving DecidableEq

/-- `aggregate_to_day_based_prices(raw_prices)`: an observation is a
`(UnixDateTime, Price)` pair.  On an empty list the `DataFrame` has no
`UnixDateTime` column and `set_index` raises `KeyError`.  Otherwise
`resample('D').mean()` yields one row per calendar day from the first to
the last observed day; a day's value is the arithmetic mean of that day's
prices, NaN when the day has no observation. -/
def aggregate_to_day_based_prices (raw_prices : List (ℕ × A)) :
    Except String (DailySeries A) :=
  match raw_prices with
  | [] => .error "KeyError: UnixDateTime"
  | p :: ps =>
    let d0 := (ps.map fun q => dayOf q.1).foldl min (dayOf p.1)
    let d1 := (ps.map fun q => dayOf q.1).foldl max (dayOf p.1)
    .ok ⟨d0, (List.range (d1 - d0 + 1)).map fun k =>
      let obs := ((p :: ps).filter fun q => dayOf q.1 = d0 + k).map fun q => q.2
      if obs.isEmpty then none else some (obs.sum / (obs.length : A))⟩

/-- The constant caller-visible message of the `ValueError` raised by
`retrieve_prices_from_dynamodb`. -/
def genericRetrievalMessage : String :=
  "Error occurred while retrieving prices from DynamoDB"

/-- The paginated DynamoDB query loop: `pages k` is the outcome of the
`k`-th `table.query` call, either an exception or the page's items plus
whether a `LastEvaluatedKey` continuation token was returned.  `fuel`
bounds the number of pages (the real loop runs until the store stops
returning continuation tokens). -/
def retrieveLoop {I : Type} (pages : ℕ → Except String (List I × Bool)) :
    ℕ → ℕ → List I → Except String (List I)
  | 0, _, acc => .ok acc
  | fuel + 1, k, acc =>
    match pages k with
    | .error e => .error e
    | .ok (items, cont) =>
      if cont then retrieveLoop pages fuel (k + 1) (acc ++ items)
      else .ok (acc ++ items)

/-- `retrieve_prices_from_dynamodb`: runs the paginated query loop inside
`try`; on any exception the original cause is logged (first component of
the result) and a `ValueError` with the fixed generic message is raised. -/
def retrieve_prices_from_dynamodb {I : Type} (fuel : ℕ)
    (pages : ℕ → Except String (List I × Bool)) :
    List String × Except String (List I) :=
  match retrieveLoop pages fuel 0 [] with
  | .ok items => ([], .ok items)
  | .error e => ([e], .error genericRetrievalMessage)

/-- The JSON values relevant to `data["start_time"]`. -/
inductive JVal where
  | jint (n : ℤ)
  | jstr (s : String)
  | jnull
deriving DecidableEq

/-- Numeric value of a nonempty all-digit character list, `none` otherwise. -/
def digitsVal (cs : List Char) : Option ℕ :=
  if cs ≠ [] ∧ cs.all Char.isDigit then
    some (cs.foldl (fun a c => 10 * a + (c.toNat - 48)) 0)
  else none

/-- Characters of a string with surrounding whitespace stripped, as Python
`int(str)` strips it before parsing. -/
def pyTrim (s : String) : List Char :=
  ((s.toList.dropWhile Char.isWhitespace).reverse.dropWhile
    Char.isWhitespace).reverse

/-- The fragment of Python `int(str)` exercised here: strip surrounding
whitespace, optional sign, then a nonempty run of decimal digits.
(Python additionally accepts underscores between digits; no claim depends
on that.) -/
def pyIntOfString (s : String) : Option ℤ :=
  match pyTrim s with
  | '-' :: rest => (digitsVal rest).map fun n => -(n : ℤ)
  | '+' :: rest => (digitsVal rest).map fun n => (n : ℤ)
  | cs => (digitsVal cs).map fun n => (n : ℤ)

/-- Python `int(...)` applied to a JSON value: integers pass through,
strings are parsed as decimal integers, anything else raises. -/
def pyInt : JVal → Except String ℤ
  | .jint n => .ok n
  | .jstr s =>
    match pyIntOfString s with
    | some n => .ok n
    | none => .error ("invalid literal for int() with base 10: " ++ s)
  | .jnull =>
    .error "int() argument must be a string or a real number, not NoneType"

/-- The success payload of the endpoint: a confirmation rule name and the
echoed instrument. -/
structure Response where
  rule : String
  instrument : String
deriving DecidableEq

/-- `robust_volatility_calculation()`: parses `start_time` with `int()`,
retrieves the raw prices (`pages t` abstracts the DynamoDB query issued
with `start_time = t`), runs the four numeric stages, discards the floored
series and returns the confirmation payload. -/
noncomputable def robust_volatility_calculation (instrument : String)
    (start_time : JVal) (fuel : ℕ)
    (pages : ℤ → ℕ → Except String (List (ℕ × ℝ) × Bool)) :
    Except String Response :=
  match pyInt start_time with
  | .error e => .error e
  | .ok t =>
    match (retrieve_prices_from_dynamodb fuel (pages t)).2 with
    | .error e => .error e
    | .ok raw_prices =>
      match aggregate_to_day_based_prices raw_prices with
      | .error e => .error e
      | .ok prices =>
        let volatility := simple_ewvol_calc prices.values
        let cutted_vol := apply_min_vol volatility
        match apply_vol_floor cutted_vol with
        | .error e => .error e
        | .ok _ => .ok ⟨"Robust Volatility Series", instrument⟩

/-- Scenario fixture: two observations on the first day (prices 100 and
102, one hour apart) and one on the next day (price 101). -/
def scenarioA : List (ℕ × ℚ) := [(0, 100), (3600, 102), (86400, 101)]

/-- Store behaviour fixture: a single page holding one observation at
price 100. -/
def pagesA : ℤ → ℕ → Except String (List (ℕ × ℝ) × Bool) :=
  fun _ _ => .ok ([(0, 100)], false)

/-- Store behaviour fixture: a single page holding one observation at
price 50. -/
def pagesB : ℤ → ℕ → Except String (List (ℕ × ℝ) × Bool) :=
  fun _ _ => .ok ([(0, 50)], false)

/-! ## Theorems -/

theorem foldl_min_le (l : List ℕ) (a : ℕ) :
    l.foldl min a ≤ a ∧ ∀ x ∈ l, l.foldl min a ≤ x := by
  induction l generalizing a with
  | nil => simp
  | cons x xs ih =>
    obtain ⟨ha, hall⟩ := ih (min a x)
    rw [List.foldl_cons]
    refine ⟨le_trans ha (min_le_left _ _), ?_⟩
    intro y hy
    rcases List.mem_cons.mp hy with rfl | h
    · exact le_trans ha (min_le_right _ _)
    · exact hall y h

theorem foldl_min_mem (l : List ℕ) (a : ℕ) :
    l.foldl min a = a ∨ l.foldl min a ∈ l := by
  induction l generalizing a with
  | nil => simp
  | cons x xs ih =>
    rcases ih (min a x) with h | h
    · rcases min_choice a x with hm | hm
      · left
        rw [List.foldl_cons, h, hm]
      · right
        rw [List.foldl_cons, h, hm]
        exact List.mem_cons_self x xs
    · right
      exact List.mem_cons_of_mem x h

theorem le_foldl_max (l : List ℕ) (a : ℕ) :
    a ≤ l.foldl max a ∧ ∀ x ∈ l, x ≤ l.foldl max a := by
  induction l generalizing a with
  | nil => simp
  | cons x xs ih =>
    obtain ⟨ha, hall⟩ := ih (max a x)
    rw [List.foldl_cons]
    refine ⟨le_trans (le_max_left _ _) ha, ?_⟩
    intro y hy
    rcases List.mem_cons.mp hy with rfl | h
    · exact le_trans (le_max_right _ _) ha
    · exact hall y h

theorem foldl_max_mem (l : List ℕ) (a : ℕ) :
    l.foldl max a = a ∨ l.foldl max a ∈ l := by
  induction l generalizing a with
  | nil => simp
  | cons x xs ih =>
    rcases ih (max a x) with h | h
    · rcases max_choice a x with hm | hm
      · left
        rw [List.foldl_cons, h, hm]
      · right
        rw [List.foldl_cons, h, hm]
        exact List.mem_cons_self x xs
    · right
      exact List.mem_cons_of_mem x h

theorem length_ffillAux (c : Option A) (l : List (Option A)) :
    (ffillAux c l).length = l.length := by
  induction l generalizing c with
  | nil => rfl
  | cons x xs ih => cases x <;> simp [ffillAux, ih]

theorem ffillAux_isSome (v : A) (l : List (Option A)) :
    ∀ e ∈ ffillAux (some v) l, e.isSome := by
  induction l generalizing v with
  | nil => simp [ffillAux]
  | cons x xs ih =>
    cases x with
    | none => simpa [ffillAux] using ih v
    | some w => simpa [ffillAux] using ih w

/-- Index-wise description of `List.zipWith`. -/
theorem getElem?_zipWith_eq {σ β γ : Type} (f : σ → β → γ) (l₁ : List σ)
    (l₂ : List β) (i : ℕ) :
    (List.zipWith f l₁ l₂)[i]? =
      match l₁[i]?, l₂[i]? with
      | some a, some b => some (f a b)
      | _, _ => none := by
  induction l₁ generalizing l₂ i with
  | nil => simp
  | cons x xs ih =>
    cases l₂ with
    | nil => simp
    | cons y ys =>
      cases i with
      | zero => simp
      | succ j => simpa using ih ys j

theorem length_rollingQuantile (w mp : ℕ) (q : ℚ) (s : List (Option A)) :
    (rollingQuantile w mp q s).length = s.length := by
  simp [rollingQuantile]

theorem rollingQuantile_getElem? (w mp : ℕ) (q : ℚ) (s : List (Option A))
    (i : ℕ) (hi : i < s.length) :
    (rollingQuantile w mp q s)[i]? =
      some (if (((s.take (i + 1)).drop (i + 1 - w)).filterMap id).length < mp
        then none
        else some (quantileLinear q (((s.take (i + 1)).drop (i + 1 - w)).filterMap id))) := by
  simp [rollingQuantile, List.getElem?_map, List.getElem?_range hi]

theorem length_vol_min_raw (vol : List (Option A)) :
    (vol_min_raw vol).length = vol.length :=
  length_rollingQuantile _ _ _ _

theorem length_vol_min_filled (vol : List (Option A)) :
    (vol_min_filled vol).length = vol.length := by
  simp [vol_min_filled, ffill, length_ffillAux, length_vol_min_raw]

theorem vol_min_filled_cons (vol : List (Option A)) (hne : vol ≠ []) :
    ∃ t : List (Option A), vol_min_filled vol = some 0 :: ffillAux (some 0) t := by
  have hraw : vol_min_raw vol ≠ [] := by
    intro h
    exact hne (List.length_eq_zero.mp (by rw [← length_vol_min_raw vol, h]; rfl))
  obtain ⟨x, t, hxt⟩ := List.exists_cons_of_ne_nil hraw
  exact ⟨t, by rw [vol_min_filled, hxt]; rfl⟩

theorem vol_min_filled_isSome (vol : List (Option A)) (hne : vol ≠ []) :
    ∀ e ∈ vol_min_filled vol, e.isSome := by
  obtain ⟨t, ht⟩ := vol_min_filled_cons vol hne
  rw [ht]
  intro e he
  rcases List.mem_cons.mp he with h | h
  · rw [h]; rfl
  · exact ffillAux_isSome 0 t e h

theorem apply_vol_floor_ok (vol : List (Option A)) (hne : vol ≠ []) :
    apply_vol_floor vol = .ok (List.zipWith npMaximum vol (vol_min_filled vol)) := by
  rw [apply_vol_floor, if_neg]
  simp only [List.isEmpty_iff]
  intro h
  exact hne (List.length_eq_zero.mp (by rw [← length_vol_min_raw vol, h]; rfl))

/-- C2: at every day, the raw QuantileFloor reference is "no data" when the
trailing 500-day window holds fewer than 100 valid values, and otherwise is
the 5th-percentile of that window, obtained by linear interpolation between
the order statistics (a sorted permutation) of the valid values. -/
theorem quantile_floor_raw_reference (s : List (Option ℚ)) (i : ℕ)
    (hi : i < s.length) :
    ((((s.take (i + 1)).drop (i + 1 - floor_days)).filterMap id).length < floor_min_periods →
      (vol_min_raw s)[i]? = some none) ∧
    (floor_min_periods ≤ (((s.take (i + 1)).drop (i + 1 - floor_days)).filterMap id).length →
      ∃ (sorted : List ℚ) (r : ℚ),
        sorted.Perm (((s.take (i + 1)).drop (i + 1 - floor_days)).filterMap id) ∧
        List.Sorted (· ≤ ·) sorted ∧
        (vol_min_raw s)[i]? = some (some r) ∧
        ⌊floor_min_quant * ((sorted.length : ℚ) - 1)⌋.toNat + 1 < sorted.length ∧
        r = sorted.getD ⌊floor_min_quant * ((sorted.length : ℚ) - 1)⌋.toNat 0 +
          (floor_min_quant * ((sorted.length : ℚ) - 1) -
            (⌊floor_min_quant * ((sorted.length : ℚ) - 1)⌋.toNat : ℚ)) *
          (sorted.getD (⌊floor_min_quant * ((sorted.length : ℚ) - 1)⌋.toNat + 1) 0 -
            sorted.getD ⌊floor_min_quant * ((sorted.length : ℚ) - 1)⌋.toNat 0)) := by
  have hget := rollingQuantile_getElem? floor_days floor_min_periods floor_min_quant s i hi
  set vals := ((s.take (i + 1)).drop (i + 1 - floor_days)).filterMap id with hvals
  constructor
  · intro hlt
    rw [vol_min_raw, hget, if_pos hlt]
  · intro hge
    set sorted := vals.insertionSort (· ≤ ·) with hsorted
    have hperm : sorted.Perm vals := List.perm_insertionSort _ _
    have hlen : sorted.length = vals.length := hperm.length_eq
    have hn : floor_min_periods ≤ sorted.length := by rw [hlen]; exact hge
    have h100 : (100 : ℕ) ≤ sorted.length := hn
    have hq : floor_min_quant = 1 / 20 := by norm_num [floor_min_quant]
    have hL : (100 : ℚ) ≤ (sorted.length : ℚ) := by exact_mod_cast h100
    -- the interpolation index and its successor both lie inside the list
    have hjlt : ⌊floor_min_quant * ((sorted.length : ℚ) - 1)⌋.toNat + 1 < sorted.length := by
      have h0 : (0 : ℤ) ≤ ⌊floor_min_quant * ((sorted.length : ℚ) - 1)⌋ := by
        apply Int.floor_nonneg.mpr
        rw [hq]
        linarith
      have hup : ⌊floor_min_quant * ((sorted.length : ℚ) - 1)⌋ < (sorted.length : ℤ) - 1 := by
        rw [Int.floor_lt, hq]
        push_cast
        linarith
      omega
    refine ⟨sorted, quantileLinear floor_min_quant vals, hperm,
      List.sorted_insertionSort _ _, ?_, hjlt, ?_⟩
    · rw [vol_min_raw, hget, if_neg (not_lt.mpr hge)]
    · have hD : sorted.getD (⌊floor_min_quant * ((sorted.length : ℚ) - 1)⌋.toNat + 1)
          (sorted.getD ⌊floor_min_quant * ((sorted.length : ℚ) - 1)⌋.toNat 0) =
          sorted.getD (⌊floor_min_quant * ((sorted.length : ℚ) - 1)⌋.toNat + 1) 0 := by
        rw [List.getD_eq_getElem _ _ hjlt, List.getD_eq_getElem _ _ hjlt]
      simp only [quantileLinear, ← hsorted, Rat.cast_id, hD]

/-- Witness for C2 at the one-element series `[some 3]`: its only window
has a single valid value, fewer than 100, so the raw reference is NaN. -/
theorem quantile_floor_raw_reference_witness :
    0 < ([some (3 : ℚ)] : List (Option ℚ)).length ∧
    (vol_min_raw [some (3 : ℚ)])[0]? = some none :=
  ⟨by decide, (quantile_floor_raw_reference [some 3] 0 (by decide)).1 (by decide)⟩

/-- C1: for a non-empty clamped series, `apply_vol_floor` succeeds, the
forward-filled reference has value exactly `0.0` at index 0 and no
"no data" entries, and wherever the clamped input holds a value the final
output holds a value at least as large as both that input value and the
reference value at that index. -/
theorem quantile_floor_spec (vol : List (Option ℚ)) (hne : vol ≠ []) :
    ∃ out : List (Option ℚ),
      apply_vol_floor vol = .ok out ∧
      (vol_min_filled vol)[0]? = some (some 0) ∧
      (∀ e ∈ vol_min_filled vol, e.isSome) ∧
      (∀ (i : ℕ) (v : ℚ), vol[i]? = some (some v) →
        ∃ w : ℚ, out[i]? = some (some w) ∧ v ≤ w ∧
          ∀ r : ℚ, (vol_min_filled vol)[i]? = some (some r) → r ≤ w) := by
  refine ⟨_, apply_vol_floor_ok vol hne, ?_, vol_min_filled_isSome vol hne, ?_⟩
  · obtain ⟨t, ht⟩ := vol_min_filled_cons vol hne
    rw [ht]
    simp
  · intro i v hv
    have hi : i < vol.length := by
      by_contra hge
      rw [List.getElem?_eq_none (not_lt.mp hge)] at hv
      exact Option.noConfusion hv
    have hif : i < (vol_min_filled vol).length := by
      rw [length_vol_min_filled]; exact hi
    obtain ⟨b, hb⟩ : ∃ b, (vol_min_filled vol)[i]? = some b :=
      ⟨_, List.getElem?_eq_getElem hif⟩
    have hbs : b.isSome :=
      vol_min_filled_isSome vol hne b (List.getElem?_mem hb)
    obtain ⟨r, hr⟩ := Option.isSome_iff_exists.mp hbs
    refine ⟨max v r, ?_, le_max_left _ _, ?_⟩
    · rw [getElem?_zipWith_eq, hv, hb, hr]
      rfl
    · intro r' hr'
      rw [hb, hr] at hr'
      have : r' = r := by
        injection hr' with h1
        injection h1 with h2
        exact h2.symm
      rw [this]
      exact le_max_right _ _

/-- Witness for C1 at the concrete series `[some 1]`. -/
theorem quantile_floor_spec_witness :
    (([some (1 : ℚ)] : List (Option ℚ)) ≠ []) ∧
    ∃ out : List (Option ℚ),
      apply_vol_floor [some (1 : ℚ)] = .ok out ∧
      (vol_min_filled [some (1 : ℚ)])[0]? = some (some 0) ∧
      (∀ e ∈ vol_min_filled [some (1 : ℚ)], e.isSome) ∧
      (∀ (i : ℕ) (v : ℚ), [some (1 : ℚ)][i]? = some (some v) →
        ∃ w : ℚ, out[i]? = some (some w) ∧ v ≤ w ∧
          ∀ r : ℚ, (vol_min_filled [some (1 : ℚ)])[i]? = some (some r) → r ≤ w) :=
  ⟨by simp, quantile_floor_spec [some 1] (by simp)⟩

/-- C8: wherever the clamped input is "no data", the floored output is
"no data" as well: `np.maximum` propagates NaN, so the floor never fills
warm-up gaps even though the forward-filled reference holds a value there. -/
theorem quantile_floor_nan_propagation (vol : List (Option ℚ)) (i : ℕ)
    (hi : vol[i]? = some none) :
    ∃ out : List (Option ℚ),
      apply_vol_floor vol = .ok out ∧ out[i]? = some none := by
  have hlt : i < vol.length := by
    by_contra hge
    rw [List.getElem?_eq_none (not_lt.mp hge)] at hi
    exact Option.noConfusion hi
  have hne : vol ≠ [] := by
    intro h
    rw [h] at hlt
    exact Nat.not_lt_zero i hlt
  refine ⟨_, apply_vol_floor_ok vol hne, ?_⟩
  have hif : i < (vol_min_filled vol).length := by
    rw [length_vol_min_filled]; exact hlt
  obtain ⟨b, hb⟩ : ∃ b, (vol_min_filled vol)[i]? = some b :=
    ⟨_, List.getElem?_eq_getElem hif⟩
  rw [getElem?_zipWith_eq, hi, hb]
  cases b <;> rfl

/-- Witness for C8 at `[none, some 5]`, index 0: the reference there is
`0.0` but the output stays "no data". -/
theorem quantile_floor_nan_propagation_witness :
    (([none, some (5 : ℚ)] : List (Option ℚ))[0]? = some none) ∧
    ∃ out : List (Option ℚ),
      apply_vol_floor [none, some (5 : ℚ)] = .ok out ∧ out[0]? = some none :=
  ⟨by decide, quantile_floor_nan_propagation [none, some 5] 0 (by decide)⟩

theorem ewmDecay_pos : (0 : A) < ewmDecay := by
  norm_num [ewmDecay, ewm_span]

theorem ewmInit_inv : EwInv (ewmInit : EwState A) :=
  ⟨le_rfl, le_rfl, le_rfl, by norm_num [ewmInit], by norm_num [ewmInit],
    fun _ => ⟨rfl, rfl, rfl, rfl⟩,
    fun h => absurd h (by norm_num [ewmInit]),
    fun h => absurd h (by norm_num [ewmInit])⟩

set_option maxHeartbeats 1600000 in
theorem ewmStep_inv (st : EwState A) (x : Option A) (h : EwInv st) :
    EwInv (ewmStep st x) := by
  obtain ⟨h1, h2, h3, h4, h5, h0, hc1, hc2⟩ := h
  have hd : (0 : A) < ewmDecay := ewmDecay_pos
  cases x with
  | none =>
    simp only [ewmStep, EwInv]
    refine ⟨mul_nonneg hd.le h1, mul_nonneg (by positivity) h2,
      mul_nonneg hd.le h3, ?_, ?_, ?_, ?_, ?_⟩
    · nlinarith [mul_le_mul_of_nonneg_left h4 (sq_nonneg ewmDecay)]
    · nlinarith [mul_le_mul_of_nonneg_left h5 (sq_nonneg ewmDecay)]
    · intro hc
      obtain ⟨e1, e2, e3, e4⟩ := h0 hc
      refine ⟨?_, ?_, ?_, ?_⟩ <;> simp [e1, e2, e3, e4]
    · intro hc
      exact mul_pos hd (hc1 hc)
    · intro hc
      have := hc2 hc
      nlinarith [mul_lt_mul_of_pos_left this (pow_pos hd 2)]
  | some v =>
    have hs1d : (0 : A) ≤ ewmDecay * st.s1 := mul_nonneg hd.le h1
    have hkey : 0 ≤ st.s1 * v ^ 2 - 2 * st.sx * v + st.sx2 := by
      rcases Nat.eq_zero_or_pos st.c with hc | hc
      · obtain ⟨e1, e2, e3, e4⟩ := h0 hc
        simp [e1, e3, e4]
      · have hs1 : 0 < st.s1 := hc1 hc
        nlinarith [sq_nonneg (st.s1 * v - st.sx), h4]
    simp only [ewmStep, EwInv]
    refine ⟨by linarith, by positivity, ?_, ?_, ?_, ?_, ?_, ?_⟩
    · have := mul_nonneg hd.le h3
      nlinarith [sq_nonneg v]
    · have hA : 0 ≤ ewmDecay ^ 2 * (st.s1 * st.sx2 - st.sx ^ 2) :=
        mul_nonneg (by positivity) (by linarith)
      have hB : 0 ≤ ewmDecay * (st.s1 * v ^ 2 - 2 * st.sx * v + st.sx2) :=
        mul_nonneg hd.le hkey
      nlinarith [hA, hB]
    · have hA : 0 ≤ ewmDecay ^ 2 * (st.s1 ^ 2 - st.s2) :=
        mul_nonneg (by positivity) (by linarith)
      nlinarith [hA, hs1d]
    · intro hc
      exact absurd hc (Nat.succ_ne_zero st.c)
    · intro _
      linarith
    · intro hc
      have hcge : 1 ≤ st.c := by omega
      have hs1 : 0 < st.s1 := hc1 hcge
      have hA : 0 ≤ ewmDecay ^ 2 * (st.s1 ^ 2 - st.s2) :=
        mul_nonneg (by positivity) (by linarith)
      nlinarith [hA, mul_pos hd hs1]

theorem foldl_ewmStep_inv (l : List (Option A)) (st : EwState A) (h : EwInv st) :
    EwInv (l.foldl ewmStep st) := by
  induction l generalizing st with
  | nil => exact h
  | cons x xs ih => exact ih _ (ewmStep_inv st x h)

theorem foldl_ewmStep_c (l : List (Option A)) (st : EwState A) :
    (l.foldl ewmStep st).c = st.c + (l.filterMap id).length := by
  induction l generalizing st with
  | nil => simp
  | cons x xs ih =>
    cases x with
    | none =>
      rw [List.foldl_cons, ih]
      simp [ewmStep]
    | some v =>
      rw [List.foldl_cons, ih]
      simp [ewmStep, List.filterMap_cons]
      omega

theorem ewmVarAux_length (st : EwState A) (l : List (Option A)) :
    (ewmVarAux st l).length = l.length := by
  induction l generalizing st with
  | nil => rfl
  | cons x xs ih => simp [ewmVarAux, ih]

theorem ewmVarAux_getElem? (st : EwState A) (l : List (Option A)) (i : ℕ)
    (hi : i < l.length) :
    (ewmVarAux st l)[i]? = some (ewmVarAt ((l.take (i + 1)).foldl ewmStep st)) := by
  induction l generalizing st i with
  | nil => simp at hi
  | cons x xs ih =>
    cases i with
    | zero => simp [ewmVarAux]
    | succ j =>
      have hj : j < xs.length := by simpa using hi
      simpa [ewmVarAux] using ih (ewmStep st x) j hj

theorem ewmVarAt_nonneg (st : EwState A) (h : EwInv st)
    (hc : min_periods ≤ st.c) :
    ∃ v : A, ewmVarAt st = some v ∧ 0 ≤ v := by
  obtain ⟨h1, h2, h3, h4, h5, h0, hc1, hc2⟩ := h
  have h2c : 2 ≤ st.c := le_trans (by norm_num [min_periods]) hc
  refine ⟨_, by rw [ewmVarAt, if_neg (not_lt.mpr hc)], ?_⟩
  exact div_nonneg (by linarith [h4]) (by linarith [hc2 h2c])

/-- C4: `simple_ewvol_calc` yields "no data" at every index before
`min_periods = 10` valid points have accumulated in the series, and a
non-negative value at every index from that point on. -/
theorem vol_estimator_warmup (s : List (Option ℝ)) (i : ℕ) (hi : i < s.length) :
    (((s.take (i + 1)).filterMap id).length < min_periods →
      (simple_ewvol_calc s)[i]? = some none) ∧
    (min_periods ≤ ((s.take (i + 1)).filterMap id).length →
      ∃ v : ℝ, (simple_ewvol_calc s)[i]? = some (some v) ∧ 0 ≤ v) := by
  have hvar := ewmVarAux_getElem? (ewmInit : EwState ℝ) s i hi
  have hcount : ((s.take (i + 1)).foldl ewmStep (ewmInit : EwState ℝ)).c =
      ((s.take (i + 1)).filterMap id).length := by
    rw [foldl_ewmStep_c]
    simp [ewmInit]
  constructor
  · intro hlt
    rw [simple_ewvol_calc, List.getElem?_map, ewmVar, hvar]
    rw [ewmVarAt, if_pos (by rw [hcount]; exact hlt)]
    rfl
  · intro hge
    obtain ⟨v, hv, hv0⟩ := ewmVarAt_nonneg _ (foldl_ewmStep_inv _ _ ewmInit_inv)
      (by rw [hcount]; exact hge)
    refine ⟨Real.sqrt v, ?_, Real.sqrt_nonneg v⟩
    rw [simple_ewvol_calc, List.getElem?_map, ewmVar, hvar, hv]
    simp [hv0]

/-- Witness for C4: a 9-point all-valid daily series has "no data" at its
first and at its last index (fewer than 10 valid points accumulate). -/
theorem vol_estimator_warmup_witness :
    0 < ([some 1, some 1, some 1, some 1, some 1, some 1, some 1, some 1,
        some 1] : List (Option ℝ)).length ∧
    (simple_ewvol_calc [some 1, some 1, some 1, some 1, some 1, some 1,
        some 1, some 1, some 1])[0]? = some none ∧
    (simple_ewvol_calc [some 1, some 1, some 1, some 1, some 1, some 1,
        some 1, some 1, some 1])[8]? = some none :=
  ⟨by norm_num,
    (vol_estimator_warmup _ 0 (by norm_num)).1
      (by norm_num [min_periods, List.filterMap]),
    (vol_estimator_warmup _ 8 (by norm_num)).1
      (by norm_num [min_periods, List.filterMap])⟩

/-- C3: `apply_min_vol` replaces every value strictly below `1e-10` with
exactly `1e-10`, leaves values already `≥ 1e-10` unchanged exactly, passes
"no data" entries through unchanged, preserves the index, and no value of
its output is below `1e-10`. -/
theorem minimum_clamp_spec (vol : List (Option ℚ)) :
    vol_abs_min = (1 : ℚ) / 10 ^ 10 ∧
    (apply_min_vol vol).length = vol.length ∧
    (∀ i : ℕ, vol[i]? = some none → (apply_min_vol vol)[i]? = some none) ∧
    (∀ (i : ℕ) (v : ℚ), vol[i]? = some (some v) →
      (v < vol_abs_min → (apply_min_vol vol)[i]? = some (some vol_abs_min)) ∧
      (vol_abs_min ≤ v → (apply_min_vol vol)[i]? = some (some v))) ∧
    (∀ (i : ℕ) (w : ℚ), (apply_min_vol vol)[i]? = some (some w) → vol_abs_min ≤ w) := by
  refine ⟨rfl, by simp [apply_min_vol], ?_, ?_, ?_⟩
  · intro i hi
    simp [apply_min_vol, hi]
  · intro i v hv
    refine ⟨fun hlt => ?_, fun hge => ?_⟩
    · simp [apply_min_vol, hv, if_pos hlt]
    · simp [apply_min_vol, hv, if_neg (not_lt.mpr hge)]
  · intro i w hw
    simp only [apply_min_vol, List.getElem?_map] at hw
    rcases h : vol[i]? with _ | e
    · rw [h] at hw; simp at hw
    · rw [h] at hw
      cases e with
      | none => simp at hw
      | some v =>
        by_cases hlt : v < vol_abs_min
        · simp [if_pos hlt] at hw
          simp [← hw]
        · simp [if_neg hlt] at hw
          exact hw ▸ not_lt.mp hlt

/-- Witness for C3 at the concrete series `[some 0, none, some 1]`: the
value `0 < 1e-10` is clamped to exactly `1e-10`. -/
theorem minimum_clamp_spec_witness :
    ([some (0 : ℚ), none, some 1][0]? = some (some (0 : ℚ))) ∧
    (apply_min_vol [some (0 : ℚ), none, some 1])[0]? = some (some vol_abs_min) :=
  ⟨by decide,
    ((minimum_clamp_spec [some 0, none, some 1]).2.2.2.1 0 0 (by decide)).1
      (by norm_num [vol_abs_min])⟩

/-- C5: on a non-empty observation list the aggregator succeeds, its index
is the gap-free daily calendar from the first to the last observed day
(every observation falls inside it and both endpoints are attained), and
each day's entry is the unweighted arithmetic mean of that day's
observations, "no data" when the day has none. -/
theorem daily_aggregator_spec (raw : List (ℕ × ℚ)) (hne : raw ≠ []) :
    ∃ out : DailySeries ℚ,
      aggregate_to_day_based_prices raw = .ok out ∧
      (∀ p ∈ raw, out.firstDay ≤ dayOf p.1) ∧
      (∃ p ∈ raw, dayOf p.1 = out.firstDay) ∧
      (∀ p ∈ raw, dayOf p.1 < out.firstDay + out.values.length) ∧
      (∃ p ∈ raw, dayOf p.1 = out.firstDay + out.values.length - 1) ∧
      ∀ k : ℕ, k < out.values.length →
        out.values[k]? = some
          (if ((raw.filter fun q => dayOf q.1 = out.firstDay + k).map fun q => q.2) = []
          then none
          else some
            (((raw.filter fun q => dayOf q.1 = out.firstDay + k).map fun q => q.2).sum /
              ((((raw.filter fun q => dayOf q.1 = out.firstDay + k).map fun q => q.2)).length : ℚ))) := by
  obtain ⟨p, ps, rfl⟩ := List.exists_cons_of_ne_nil hne
  obtain ⟨hminle, hminall⟩ := foldl_min_le (ps.map fun q => dayOf q.1) (dayOf p.1)
  obtain ⟨hmaxle, hmaxall⟩ := le_foldl_max (ps.map fun q => dayOf q.1) (dayOf p.1)
  refine ⟨_, rfl, ?_, ?_, ?_, ?_, ?_⟩
  · intro q hq
    dsimp only
    rcases List.mem_cons.mp hq with h | h
    · exact h ▸ hminle
    · exact hminall _ (List.mem_map_of_mem _ h)
  · dsimp only
    rcases foldl_min_mem (ps.map fun q => dayOf q.1) (dayOf p.1) with h | h
    · exact ⟨p, List.mem_cons_self p ps, h.symm⟩
    · obtain ⟨q, hq, hq2⟩ := List.mem_map.mp h
      exact ⟨q, List.mem_cons_of_mem p hq, by rw [hq2]⟩
  · intro q hq
    dsimp only
    simp only [List.length_map, List.length_range]
    have hqmax : dayOf q.1 ≤ (ps.map fun q => dayOf q.1).foldl max (dayOf p.1) := by
      rcases List.mem_cons.mp hq with h | h
      · exact h ▸ hmaxle
      · exact hmaxall _ (List.mem_map_of_mem _ h)
    have hdle : (ps.map fun q => dayOf q.1).foldl min (dayOf p.1) ≤
        (ps.map fun q => dayOf q.1).foldl max (dayOf p.1) := le_trans hminle hmaxle
    omega
  · dsimp only
    simp only [List.length_map, List.length_range]
    have hdle : (ps.map fun q => dayOf q.1).foldl min (dayOf p.1) ≤
        (ps.map fun q => dayOf q.1).foldl max (dayOf p.1) := le_trans hminle hmaxle
    rcases foldl_max_mem (ps.map fun q => dayOf q.1) (dayOf p.1) with h | h
    · exact ⟨p, List.mem_cons_self p ps, by omega⟩
    · obtain ⟨q, hq, hq2⟩ := List.mem_map.mp h
      exact ⟨q, List.mem_cons_of_mem p hq, by omega⟩
  · intro k hk
    dsimp only at hk ⊢
    simp only [List.length_map, List.length_range] at hk
    rw [List.getElem?_map, List.getElem?_range hk]
    simp only [Option.map_some', List.isEmpty_iff]

/-- Witness for C5 at scenario A: observations `(day1, 100)`, `(day1, 102)`,
`(day2, 101)` give a two-day calendar with means `101.0` and `101.0`. -/
theorem daily_aggregator_spec_witness :
    scenarioA ≠ [] ∧
    aggregate_to_day_based_prices scenarioA = .ok ⟨0, [some 101, some 101]⟩ ∧
    (101 : ℚ) = (100 + 102) / 2 ∧
    ∃ out : DailySeries ℚ,
      aggregate_to_day_based_prices scenarioA = .ok out ∧
      (∀ p ∈ scenarioA, out.firstDay ≤ dayOf p.1) ∧
      (∃ p ∈ scenarioA, dayOf p.1 = out.firstDay) ∧
      (∀ p ∈ scenarioA, dayOf p.1 < out.firstDay + out.values.length) ∧
      (∃ p ∈ scenarioA, dayOf p.1 = out.firstDay + out.values.length - 1) ∧
      ∀ k : ℕ, k < out.values.length →
        out.values[k]? = some
          (if ((scenarioA.filter fun q => dayOf q.1 = out.firstDay + k).map fun q => q.2) = []
          then none
          else some
            (((scenarioA.filter fun q => dayOf q.1 = out.firstDay + k).map fun q => q.2).sum /
              ((((scenarioA.filter fun q => dayOf q.1 = out.firstDay + k).map fun q => q.2)).length : ℚ))) :=
  ⟨by decide,
    by
      norm_num [aggregate_to_day_based_prices, scenarioA, dayOf, secondsPerDay,
        List.range_succ, List.filter]
      intro h
      simp at h,
    by norm_num,
    daily_aggregator_spec scenarioA (by decide)⟩

/-- C6: on an empty observation list the aggregation stage raises
(`set_index('UnixDateTime')` on a `DataFrame` with no columns) instead of
returning an empty series, and an empty series into `apply_vol_floor`
raises (`iloc[0]` assignment on an empty series); the estimator and clamp
stages do return empty series.  This contradicts the spec's scenario C. -/
theorem empty_input_stage_behaviour :
    aggregate_to_day_based_prices ([] : List (ℕ × ℝ)) = .error "KeyError: UnixDateTime" ∧
    simple_ewvol_calc [] = [] ∧
    apply_min_vol ([] : List (Option ℝ)) = [] ∧
    apply_vol_floor ([] : List (Option ℝ)) =
      .error "IndexError: iloc cannot enlarge its target object" :=
  ⟨rfl, rfl, rfl, rfl⟩

/-- C7: any failure of the store query makes retrieval log exactly the
original cause and raise the single generic retrieval error, whose
caller-visible message is a constant independent of the cause; and the
query loop performs no retry: the first failing query ends it at once. -/
theorem retrieval_error_policy :
    (∀ (fuel : ℕ) (pages : ℕ → Except String (List (ℕ × ℚ) × Bool)) (e : String),
      retrieveLoop pages fuel 0 [] = .error e →
      retrieve_prices_from_dynamodb fuel pages =
        ([e], .error genericRetrievalMessage)) ∧
    (∀ (fuel k : ℕ) (pages : ℕ → Except String (List (ℕ × ℚ) × Bool))
      (acc : List (ℕ × ℚ)) (e : String), pages k = .error e →
      retrieveLoop pages (fuel + 1) k acc = .error e) := by
  constructor
  · intro fuel pages e h
    rw [retrieve_prices_from_dynamodb, h]
  · intro fuel k pages acc e h
    rw [retrieveLoop, h]

/-- Witness for C7: a store query failing with a connection error is
logged verbatim while the caller sees only the generic message. -/
theorem retrieval_error_policy_witness :
    retrieveLoop (fun _ => (.error "ConnectionError: network timeout" :
      Except String (List (ℕ × ℚ) × Bool))) 1 0 [] =
      .error "ConnectionError: network timeout" ∧
    retrieve_prices_from_dynamodb 1
      (fun _ => (.error "ConnectionError: network timeout" :
        Except String (List (ℕ × ℚ) × Bool))) =
      (["ConnectionError: network timeout"], .error genericRetrievalMessage) :=
  ⟨rfl, retrieval_error_policy.1 1 _ _ rfl⟩

theorem handler_ok_response (instrument : String) (start_time : JVal)
    (fuel : ℕ) (pages : ℤ → ℕ → Except String (List (ℕ × ℝ) × Bool))
    (r : Response)
    (h : robust_volatility_calculation instrument start_time fuel pages = .ok r) :
    r = ⟨"Robust Volatility Series", instrument⟩ := by
  rw [robust_volatility_calculation] at h
  split at h
  · exact Except.noConfusion h
  · split at h
    · exact Except.noConfusion h
    · split at h
      · exact Except.noConfusion h
      · dsimp only at h
        split at h
        · exact Except.noConfusion h
        · exact (Except.ok.inj h).symm

/-- C9: two executions that both complete with the same instrument and
start time return identical success responses, whatever the store
returned: the response carries the fixed rule name and the echoed
instrument only, never the computed series. -/
theorem response_independent_of_prices (instrument : String)
    (start_time : JVal) (fuel₁ fuel₂ : ℕ)
    (pages₁ pages₂ : ℤ → ℕ → Except String (List (ℕ × ℝ) × Bool))
    (r₁ r₂ : Response)
    (h₁ : robust_volatility_calculation instrument start_time fuel₁ pages₁ = .ok r₁)
    (h₂ : robust_volatility_calculation instrument start_time fuel₂ pages₂ = .ok r₂) :
    r₁ = r₂ ∧ r₁ = ⟨"Robust Volatility Series", instrument⟩ := by
  rw [handler_ok_response _ _ _ _ _ h₁, handler_ok_response _ _ _ _ _ h₂]
  exact ⟨rfl, rfl⟩

/-- Witness for C9: two stores returning different price data yield the
same success response. -/
theorem response_independent_of_prices_witness :
    ∃ r₁ r₂ : Response,
      robust_volatility_calculation "GOLD" (.jint 0) 1 pagesA = .ok r₁ ∧
      robust_volatility_calculation "GOLD" (.jint 0) 1 pagesB = .ok r₂ ∧
      r₁ = r₂ := by
  have h₁ : robust_volatility_calculation "GOLD" (.jint 0) 1 pagesA =
      .ok ⟨"Robust Volatility Series", "GOLD"⟩ := rfl
  have h₂ : robust_volatility_calculation "GOLD" (.jint 0) 1 pagesB =
      .ok ⟨"Robust Volatility Series", "GOLD"⟩ := rfl
  exact ⟨_, _, h₁, h₂,
    (response_independent_of_prices "GOLD" (.jint 0) 1 1 pagesA pagesB _ _ h₁ h₂).1⟩

/-- C10: a decimal-integer string `start_time` is accepted and processed
exactly as the corresponding integer, and a `start_time` that `int()`
cannot convert raises before any store query is issued: the outcome is the
parse error, independent of the store behaviour. -/
theorem start_time_parsing (instrument : String) (fuel : ℕ)
    (pages : ℤ → ℕ → Except String (List (ℕ × ℝ) × Bool)) :
    (∀ (s : String) (n : ℤ), pyIntOfString s = some n →
      robust_volatility_calculation instrument (.jstr s) fuel pages =
        robust_volatility_calculation instrument (.jint n) fuel pages) ∧
    (∀ (v : JVal) (e : String), pyInt v = .error e →
      ∀ (fuel' : ℕ) (pages' : ℤ → ℕ → Except String (List (ℕ × ℝ) × Bool)),
        robust_volatility_calculation instrument v fuel pages = .error e ∧
        robust_volatility_calculation instrument v fuel' pages' =
          robust_volatility_calculation instrument v fuel pages) := by
  constructor
  · intro s n hs
    have hpy : pyInt (.jstr s) = pyInt (.jint n) := by
      simp [pyInt, hs]
    rw [robust_volatility_calculation, robust_volatility_calculation, hpy]
  · intro v e hv fuel' pages'
    constructor
    · rw [robust_volatility_calculation, hv]
    · rw [robust_volatility_calculation, robust_volatility_calculation, hv]

/-- Witness for C10: the string `"123"` parses to `123` and is handled
identically to the integer `123`. -/
theorem start_time_parsing_witness :
    pyIntOfString "123" = some 123 ∧
    robust_volatility_calculation "GOLD" (.jstr "123") 1 pagesA =
      robust_volatility_calculation "GOLD" (.jint 123) 1 pagesA :=
  ⟨by decide, (start_time_parsing "GOLD" 1 pagesA).1 "123" 123 (by decide)⟩

end RiskService
